import Mathlib

/-!
Verification of the media-pipeline orchestrator of `scripts/server.py`
(videochat-withme).

The development shallowly embeds the pure text-splitting algorithm
(`_split_text`), the HTTP-client wrappers (`transcribe_audio`,
`get_openclaw_reply`) and the stateful speech-synthesis pipeline
(`generate_tts`, `_run_edge_tts`, `_write_silent_mp3`).  Text is modelled
as `List Char`, the filesystem as an association list from path strings to
byte lists, and the outcomes of external subprocess invocations
(edge-tts, ffmpeg) as oracle values supplied by an environment.
-/

set_option autoImplicit false

namespace VideochatServer

/-! ## Text splitting (`_split_text`, server.py lines 296-320) -/

/-- Terminator characters of the regex class in
`re.split(r'(?<=[。！？.!?\n])', text)` (server.py line 301). -/
def isTerm (c : Char) : Bool :=
  c == '。' || c == '！' || c == '？' || c == '.' || c == '!' || c == '?' || c == '\n'

/-- Model of `re.split(r'(?<=[。！？.!?\n])', text)`: splits the text right
after every terminator character, keeping the terminator attached to the
preceding piece.  Like Python, a trailing terminator yields a final empty
piece, and text without terminators yields the single piece `[text]`. -/
def splitSentences : List Char → List (List Char)
  | [] => [[]]
  | c :: rest =>
    let tail := splitSentences rest
    if isTerm c then [c] :: tail
    else (c :: tail.headD []) :: tail.tail

/-- Model of the greedy sentence-packing loop of `_split_text`
(server.py lines 302-312): `chunks`/`current` accumulate exactly as in the
source; empty sentence pieces are skipped. -/
def packGo (maxLen : Nat) : List (List Char) → List (List Char) → List Char → List (List Char)
  | [], chunks, current => if current ≠ [] then chunks ++ [current] else chunks
  | s :: rest, chunks, current =>
    if s = [] then packGo maxLen rest chunks current
    else if maxLen < current.length + s.length ∧ current ≠ [] then
      packGo maxLen rest (chunks ++ [current]) s
    else packGo maxLen rest chunks (current ++ s)

/-- Model of the hard-slicing `while` loop of `_split_text`
(server.py lines 314-319) for one chunk.  The `fuel` argument only bounds
the recursion; `sliceChunk` supplies `chunk.length`, which is enough fuel
whenever `1 ≤ maxLen` (the source always calls this with `max_len = 200`,
so the fuel never runs out on the embedded inputs). -/
def sliceGo (maxLen : Nat) : Nat → List Char → List (List Char)
  | 0, chunk => if chunk ≠ [] then [chunk] else []
  | fuel + 1, chunk =>
    if maxLen < chunk.length then
      chunk.take maxLen :: sliceGo maxLen fuel (chunk.drop maxLen)
    else if chunk ≠ [] then [chunk] else []

/-- Hard-slice one packed chunk into pieces of at most `maxLen` characters. -/
def sliceChunk (maxLen : Nat) (chunk : List Char) : List (List Char) :=
  sliceGo maxLen chunk.length chunk

/-- Model of `_split_text(text, max_len=200)` (server.py lines 296-320). -/
def split_text (text : List Char) (maxLen : Nat := 200) : List (List Char) :=
  if text.length ≤ maxLen then [text]
  else ((packGo maxLen (splitSentences text) [] []).map (sliceChunk maxLen)).flatten

/-! ## Python string helpers -/

/-- Whitespace characters stripped by Python `str.strip()` for ASCII text
(space, tab, newline, carriage return, vertical tab, form feed). -/
def isPyWhitespace (c : Char) : Bool :=
  c == ' ' || c == '\t' || c == '\n' || c == '\r' || c.toNat == 11 || c.toNat == 12

/-- Model of Python `str.strip()`: drop leading and trailing whitespace. -/
def pyStrip (cs : List Char) : List Char :=
  ((cs.dropWhile isPyWhitespace).reverse.dropWhile isPyWhitespace).reverse

/-! ## Transcription client (`transcribe_audio`, server.py lines 170-185) -/

/-- Outcome of the transcription HTTP call, as observed by the code:
either a response with a status code and the parsed `text` field (the
empty string when the field is missing), or a raised exception with its
message (`httpx` transport errors, timeouts, JSON errors, ... — all are
caught by the bare `except Exception`). -/
inductive SttOutcome where
  | response (status : Nat) (textField : List Char)
  | exc (msg : List Char)

/-- Model of `transcribe_audio` (server.py lines 170-185).  The function is
total: the source wraps the whole body in `try/except Exception`, so no
exception reaches the caller. -/
def transcribe_audio : SttOutcome → List Char
  | .response status t =>
    if status = 200 then
      let s := pyStrip t
      if s ≠ [] then s else "[空白录音]".toList
    else "[STT error: ".toList ++ (toString status).toList ++ "]".toList
  | .exc m => "[STT error: ".toList ++ m ++ "]".toList

/-! ## Reply client (`get_openclaw_reply`, server.py lines 191-257) -/

/-- Outcome of the chat-completion HTTP call as observed by the code:
a response with status and the parsed `choices[0].message.content` string
(the empty string when missing), a timeout (`httpx.TimeoutException`), or
any other raised exception (caught by the bare `except Exception`). -/
inductive ChatOutcome where
  | response (status : Nat) (content : List Char)
  | timeout
  | excOther

/-- Model of `get_openclaw_reply` (server.py lines 245-257).  Mirrors the
source exactly: on HTTP 200 a truthy (non-empty) content string is
returned stripped — even if it strips to the empty string. -/
def get_openclaw_reply (transcript : List Char) : ChatOutcome → List Char
  | .response status content =>
    if status = 200 then
      if content ≠ [] then pyStrip content
      else "Hmm... I spaced out for a moment.".toList
    else "I heard you, but my brain glitched for a sec...".toList
  | .timeout =>
    "I heard: ".toList ++ transcript ++ "... but I took too long thinking, sorry!".toList
  | .excOther =>
    "I heard: ".toList ++ transcript ++ " (connection issue)".toList

/-- Data flow of the `chat` route (server.py lines 140-143): the transcript
returned by `transcribe_audio` is the exact string handed to
`get_openclaw_reply`, and both strings appear in the response payload. -/
def chatTexts (stt : SttOutcome) (co : ChatOutcome) : List Char × List Char :=
  let transcription := transcribe_audio stt
  (get_openclaw_reply transcription co, transcription)

/-! ## Fixed transcription request data (C10) -/

/-- Form data of the transcription request. -/
structure SttRequestData where
  model : String
  language : String
deriving DecidableEq

/-- Form data sent by `transcribe_audio` (server.py line 177): both fields
are literal constants in the source. -/
def transcribeRequestData : SttRequestData :=
  { model := "whisper-large-v3-turbo", language := "zh" }

/-- Language instruction of the reply prompt (server.py lines 198-202),
the only place the request language reaches. -/
def langInstruction (language : String) : String :=
  if language = "en" then "Please reply in English. Reply in English."
  else "请用中文回复。"

/-- Data flow of the `/api/chat` route (server.py lines 103-148): the
`language` form field is passed only to `get_openclaw_reply`;
`transcribe_audio` is called with the waveform path alone (line 140), so
the transcription request data is the same fixed constant for every
requested language. -/
def chatSttRequest (language : String) : SttRequestData := transcribeRequestData

/-! ## Filesystem model

The synthesizer's effects are writes, reads and unlinks of whole files in
the shared audio directory.  A filesystem is an association list from path
to byte content; the most recent write for a path shadows older entries,
and unlink removes every entry for the path (`missing_ok=True`: unlinking
an absent path is a no-op). -/

/-- Association-list filesystem: path to byte list. -/
structure FS where
  entries : List (String × List Nat)

/-- Content of the file at `p`, or `none` when no such file exists. -/
def FS.read (fs : FS) (p : String) : Option (List Nat) :=
  (fs.entries.find? (fun e => e.1 == p)).map (fun e => e.2)

/-- Write (create or truncate-and-replace) the file at `p`. -/
def FS.write (fs : FS) (p : String) (bs : List Nat) : FS :=
  ⟨(p, bs) :: fs.entries⟩

/-- Model of `Path.unlink(missing_ok=True)`. -/
def FS.unlink (fs : FS) (p : String) : FS :=
  ⟨fs.entries.filter (fun e => !(e.1 == p))⟩

/-- Model of `path.stat().st_size`, 0 for an absent file (the source only
consults the size after `path.exists()`). -/
def FS.sizeAt (fs : FS) (p : String) : Nat :=
  match fs.read p with
  | some bs => bs.length
  | none => 0

/-- Write the bytes when the subprocess produced an output file, else leave
the filesystem unchanged. -/
def writeOpt (fs : FS) (p : String) : Option (List Nat) → FS
  | some bs => fs.write p bs
  | none => fs

/-- Unlink every path of the list in order
(`for p in part_paths: p.unlink(missing_ok=True)`). -/
def unlinkAll (fs : FS) (ps : List String) : FS := ps.foldl FS.unlink fs

/-! ## Subprocess oracles and pipeline state -/

/-- Outcome of one `subprocess.run` invocation as the source observes it:
normal completion with a return code and the output file the process wrote
(`none` when it wrote nothing), `subprocess.TimeoutExpired`,
`FileNotFoundError` (binary absent), or any other raised exception.  The
model takes timed-out and raising invocations to leave no output file. -/
inductive ProcResult where
  | completed (rc : Int) (output : Option (List Nat))
  | timedOut
  | notFound
  | excOther

/-- Outcome of the ffmpeg silent-source invocation inside
`_write_silent_mp3`: completion (its return code is never inspected) with
the output it wrote, or any raised exception (all are caught by the bare
`except Exception`). -/
inductive SilentRun where
  | completed (output : Option (List Nat))
  | raised

/-- Environment of one `generate_tts` run: the outcome of the k-th edge-tts
subprocess invocation, of the (at most one) ffmpeg concat invocation, and
of the ffmpeg silent-source invocation. -/
structure Env where
  edge : Nat → ProcResult
  concat : ProcResult
  silent : SilentRun

/-- State threaded through the synthesis pipeline: the filesystem plus
instrumentation counters — the number of edge-tts subprocess invocations so
far (also the oracle index), the number of 1-second backoff sleeps
performed, the text of each `_run_edge_tts` call in order, the number of
ffmpeg concat invocations, and the number of `_write_silent_mp3` calls. -/
structure St where
  fs : FS
  edgeCalls : Nat
  sleeps : Nat
  synthTexts : List (List Char)
  concatCalls : Nat
  fallbacks : Nat

/-- The empty initial state: no files, no invocations yet. -/
def stEmpty : St := ⟨⟨[]⟩, 0, 0, [], 0, 0⟩

/-! ## `_run_edge_tts` (server.py lines 263-293) -/

/-- The 1-second backoff of `_run_edge_tts` (server.py lines 291-292),
performed only when the failed attempt was not the last
(`attempt < max_retries`, i.e. attempts remain). -/
def sleepIf (remaining : Nat) (st : St) : St :=
  if 0 < remaining then { st with sleeps := st.sleeps + 1 } else st

/-- The retry loop of `_run_edge_tts`, with `remaining` attempts left.  An
attempt succeeds exactly when the process exits 0 and the output file
exists with size above 1000 bytes; `FileNotFoundError` returns `False` at
once; every other outcome retries after the backoff. -/
def runEdgeTTSLoop (edge : Nat → ProcResult) (outputPath : String) :
    Nat → St → Bool × St
  | 0, st => (false, st)
  | remaining + 1, st =>
    let st1 : St := { st with edgeCalls := st.edgeCalls + 1 }
    match edge st.edgeCalls with
    | .completed rc out =>
      let st2 : St := { st1 with fs := writeOpt st1.fs outputPath out }
      if rc = 0 ∧ (st2.fs.read outputPath).isSome = true ∧ 1000 < st2.fs.sizeAt outputPath then
        (true, st2)
      else
        runEdgeTTSLoop edge outputPath remaining (sleepIf remaining st2)
    | .timedOut => runEdgeTTSLoop edge outputPath remaining (sleepIf remaining st1)
    | .notFound => (false, st1)
    | .excOther => runEdgeTTSLoop edge outputPath remaining (sleepIf remaining st1)

/-- Model of `_run_edge_tts(text, output_path, voice, rate, max_retries=3)`
(server.py lines 263-293).  The voice and rate strings are passed to the
engine and do not influence the modelled control flow; the text of the call
is logged for the chunk-ordering claims. -/
def run_edge_tts (edge : Nat → ProcResult) (text : List Char)
    (outputPath voice rate : String) (st : St) : Bool × St :=
  runEdgeTTSLoop edge outputPath 3 { st with synthTexts := st.synthTexts ++ [text] }

/-! ## Temporary-artifact paths -/

/-- Name without its final extension; models `pathlib.Path.stem` for the
plain single-component file names the orchestrator produces (it never
passes dot-files or paths with directories here). -/
def pathStemList (cs : List Char) : List Char :=
  if '.' ∈ cs then ((cs.reverse.dropWhile (fun c => !(c == '.'))).drop 1).reverse
  else cs

/-- String version of `pathStemList`. -/
def pathStem (p : String) : String := (pathStemList p.toList).asString

/-- Per-chunk part-file path:
`output_path.with_name(f"{output_path.stem}_part{i}.mp3")`
(server.py line 337). -/
def partPath (outputPath : String) (i : Nat) : String :=
  pathStem outputPath ++ "_part" ++ toString i ++ ".mp3"

/-- Concat manifest path: `output_path.with_suffix(".txt")`
(server.py line 347). -/
def manifestPath (outputPath : String) : String :=
  pathStem outputPath ++ ".txt"

/-- Bytes of a text file written with `write_text(...)`. -/
def strBytes (s : String) : List Nat := s.toList.map Char.toNat

/-- A single-quote character as a string. -/
def squote : String := String.singleton (Char.ofNat 39)

/-- Content of the concat manifest (server.py lines 348-351):
one `file <quoted path>` line per part, joined by newlines. -/
def manifestText (parts : List String) : String :=
  String.intercalate "\n" (parts.map (fun p => "file " ++ squote ++ p ++ squote))

/-! ## `_write_silent_mp3` (server.py lines 378-403) -/

/-- Little-endian 16-bit encoding (`struct.pack("<H", x)`). -/
def le16 (x : Nat) : List Nat := [x % 256, x / 256 % 256]

/-- Little-endian 32-bit encoding (`struct.pack("<I", x)`). -/
def le32 (x : Nat) : List Nat :=
  [x % 256, x / 256 % 256, x / 65536 % 256, x / 16777216 % 256]

/-- Number of samples of the last-resort silent waveform:
`n = int(sr * dur)` with `sr = 16000`, `dur = 0.5` (server.py lines
396-397); the floating-point product is exact, so `n = 8000`. -/
def silentWavNumSamples : Nat := 8000

/-- `ds = n * 2` (server.py line 398): 16000 bytes of 16-bit samples. -/
def silentWavDataSize : Nat := silentWavNumSamples * 2

/-- The exact bytes written by the last-resort branch of `_write_silent_mp3`
(server.py lines 399-402): RIFF chunk header with size `36 + ds`, the fmt
chunk packed as `struct.pack("<IHHIIHH", 16, 1, 1, sr, sr*2, 2, 16)`, and a
data chunk of `ds` zero bytes. -/
def silentWavBytes : List Nat :=
  strBytes "RIFF" ++ le32 (36 + silentWavDataSize) ++ strBytes "WAVE"
    ++ strBytes "fmt " ++ le32 16 ++ le16 1 ++ le16 1 ++ le32 16000
    ++ le32 (16000 * 2) ++ le16 2 ++ le16 16
    ++ strBytes "data" ++ le32 silentWavDataSize
    ++ List.replicate silentWavDataSize 0

/-- Model of `_write_silent_mp3(path)` (server.py lines 378-403): run the
ffmpeg silent source (return code ignored), keep its output if the file now
exists with positive size, otherwise open the path for writing (truncating)
and emit the minimal silent waveform. -/
def write_silent_mp3 (o : SilentRun) (path : String) (st : St) : St :=
  let st1 : St := { st with fallbacks := st.fallbacks + 1 }
  match o with
  | .completed out =>
    let fs1 := writeOpt st1.fs path out
    if (fs1.read path).isSome = true ∧ 0 < fs1.sizeAt path then
      { st1 with fs := fs1 }
    else
      { st1 with fs := fs1.write path silentWavBytes }
  | .raised =>
    { st1 with fs := st1.fs.write path silentWavBytes }

/-! ## `generate_tts` (server.py lines 323-375) -/

/-- `rate_map.get(speed, "+0%")` (server.py lines 324-325). -/
def rateMap (speed : String) : String :=
  if speed = "fast" then "+30%"
  else if speed = "slow" then "-30%"
  else "+0%"

/-- The per-chunk loop of `generate_tts` (server.py lines 334-343):
synthesize chunk `i` into its part-file; collect the part path on success;
on the first failure stop (`break`) with `all_ok = False`, discarding no
already-collected part path. -/
def ttsChunkLoop (env : Env) (outputPath voice rate : String) :
    List (List Char) → Nat → St → List String × Bool × St
  | [], _, st => ([], true, st)
  | chunk :: rest, i, st =>
    let r := run_edge_tts env.edge chunk (partPath outputPath i) voice rate st
    if r.1 = true then
      let L := ttsChunkLoop env outputPath voice rate rest (i + 1) r.2
      (partPath outputPath i :: L.1, L.2.1, L.2.2)
    else
      ([], false, r.2)

/-- The concat stage of `generate_tts` (server.py lines 345-371), entered
when every chunk succeeded and at least one part exists: write the
manifest, run ffmpeg concat; on return code 0 with an output above 1000
bytes delete the part-files and then the manifest and return; on any
failure (non-zero exit, undersized output, or a raised exception — all
caught) delete only the part-files and fall through to the silent
fallback. -/
def afterLoopConcat (env : Env) (outputPath : String) (parts : List String) (st : St) : St :=
  let lf := manifestPath outputPath
  let st1 : St := { st with
    fs := st.fs.write lf (strBytes (manifestText parts)),
    concatCalls := st.concatCalls + 1 }
  match env.concat with
  | .completed rc out =>
    let fs2 := writeOpt st1.fs outputPath out
    if rc = 0 ∧ (fs2.read outputPath).isSome = true ∧ 1000 < fs2.sizeAt outputPath then
      { st1 with fs := (unlinkAll fs2 parts).unlink lf }
    else
      write_silent_mp3 env.silent outputPath { st1 with fs := unlinkAll fs2 parts }
  | _ =>
    write_silent_mp3 env.silent outputPath { st1 with fs := unlinkAll st1.fs parts }

/-- Model of `generate_tts(text, output_path, voice, speed)` (server.py
lines 323-375): split the text; a single chunk is synthesized straight to
the output path and returns on success; multiple chunks run the per-chunk
loop, then the concat stage when all succeeded, cleaning up part-files
otherwise; every failing path falls through to `_write_silent_mp3`. -/
def generate_tts (env : Env) (text : List Char) (outputPath voice speed : String)
    (st : St) : St :=
  let rate := rateMap speed
  let chunks := split_text text
  if chunks.length = 1 then
    let r := run_edge_tts env.edge text outputPath voice rate st
    if r.1 = true then r.2
    else write_silent_mp3 env.silent outputPath r.2
  else
    let L := ttsChunkLoop env outputPath voice rate chunks 0 st
    if L.2.1 = true ∧ L.1 ≠ [] then
      afterLoopConcat env outputPath L.1 L.2.2
    else
      write_silent_mp3 env.silent outputPath
        { L.2.2 with fs := unlinkAll L.2.2.fs L.1 }

/-! ## Failure and success predicates on oracle outcomes -/

/-- An edge-tts invocation that fails and leaves no output file behind:
non-zero exit writing nothing, timeout, missing binary, or another raised
exception. -/
def ProcResult.failsCleanly : ProcResult → Prop
  | .completed rc out => rc ≠ 0 ∧ out = none
  | _ => True

/-- An edge-tts invocation that fails with a non-zero exit code — possibly
after writing partial output to the output path — or by timeout, missing
binary, or another raised exception.  (A completion with exit code 0 whose
output is merely undersized is not in this class: whether such an attempt
passes the source's size check depends on what already sits at the output
path.) -/
def ProcResult.failsExit : ProcResult → Prop
  | .completed rc _ => rc ≠ 0
  | _ => True

/-- The ffmpeg silent-source invocation fails: it raises, or completes
without writing anything, or leaves an empty (0-byte) file. -/
def SilentRun.failsOrEmpty : SilentRun → Prop
  | .completed out => out = none ∨ out = some []
  | .raised => True

/-- The source's per-attempt success test (server.py line 280) on a given
pre-attempt filesystem: exit code 0 and, after the process wrote its
output, the output path exists with more than 1000 bytes. -/
def edgeSuccessAt (fs : FS) (p : String) (rc : Int) (out : Option (List Nat)) : Prop :=
  rc = 0 ∧ ((writeOpt fs p out).read p).isSome = true ∧ 1000 < (writeOpt fs p out).sizeAt p

/-- Outcomes that trigger a retry (server.py lines 280-292): completion
failing the success test, a timeout, or another exception — but not a
missing binary, which aborts at once. -/
def retryableAt (fs : FS) (p : String) : ProcResult → Prop
  | .completed rc out => ¬ edgeSuccessAt fs p rc out
  | .timedOut => True
  | .notFound => False
  | .excOther => True

/-! ## Minimal RIFF/WAVE well-formedness (spec side, from the claim) -/

/-- Little-endian 16-bit field at byte offset `off`. -/
def readLE16At (bs : List Nat) (off : Nat) : Nat :=
  (bs.drop off).getD 0 0 + 256 * (bs.drop off).getD 1 0

/-- Little-endian 32-bit field at byte offset `off`. -/
def readLE32At (bs : List Nat) (off : Nat) : Nat :=
  (bs.drop off).getD 0 0 + 256 * (bs.drop off).getD 1 0
    + 65536 * (bs.drop off).getD 2 0 + 16777216 * (bs.drop off).getD 3 0

/-- Well-formed minimal RIFF/WAVE container as the claim states it: RIFF
magic with chunk size `36 + data-size`, WAVE form type, PCM format, mono,
16000 Hz, byte rate 32000, block align 2, 16 bits per sample, and a data
chunk whose size field matches its 16000 zero sample bytes (0.5 seconds of
16-bit silence at 16 kHz). -/
def isMinimalSilentWav (bs : List Nat) : Prop :=
  bs.length = 44 + 16000 ∧
  bs.take 4 = strBytes "RIFF" ∧
  readLE32At bs 4 = 36 + 16000 ∧
  (bs.drop 8).take 4 = strBytes "WAVE" ∧
  (bs.drop 12).take 4 = strBytes "fmt " ∧
  readLE32At bs 16 = 16 ∧
  readLE16At bs 20 = 1 ∧
  readLE16At bs 22 = 1 ∧
  readLE32At bs 24 = 16000 ∧
  readLE32At bs 28 = 32000 ∧
  readLE16At bs 32 = 2 ∧
  readLE16At bs 34 = 16 ∧
  (bs.drop 36).take 4 = strBytes "data" ∧
  readLE32At bs 40 = 16000 ∧
  bs.drop 44 = List.replicate 16000 0

/-! ## The silent waveform is a well-formed minimal RIFF/WAVE container -/

/-- The 44 header bytes of `silentWavBytes` (everything before the sample
data). -/
def silentWavHeader : List Nat :=
  strBytes "RIFF" ++ le32 (36 + silentWavDataSize) ++ strBytes "WAVE"
    ++ strBytes "fmt " ++ le32 16 ++ le16 1 ++ le16 1 ++ le32 16000
    ++ le32 (16000 * 2) ++ le16 2 ++ le16 16
    ++ strBytes "data" ++ le32 silentWavDataSize

/-! ## Environments for concrete runs -/

/-- Environment in which the edge-tts binary is absent, the concat tool
raises, and the silent-source generation raises. -/
def envNF : Env := ⟨fun _ => ProcResult.notFound, ProcResult.excOther, SilentRun.raised⟩

/-- A 250-character text with no sentence terminators: it splits into two
chunks (200 and 50 characters). -/
def textLong : List Char := List.replicate 250 'a'

/-- Environment in which every edge-tts invocation succeeds (writes
1001 bytes with exit code 0) but the ffmpeg concat exits 1 writing
nothing; the silent-source fallback raises. -/
def envConcatFail : Env :=
  ⟨fun _ => ProcResult.completed 0 (some (List.replicate 1001 1)),
   ProcResult.completed 1 none, SilentRun.raised⟩

/-- Environment in which every edge-tts invocation and the ffmpeg concat
succeed. -/
def envConcatOk : Env :=
  ⟨fun _ => ProcResult.completed 0 (some (List.replicate 1001 1)),
   ProcResult.completed 0 (some (List.replicate 1001 2)), SilentRun.raised⟩

/-- Environment in which every edge-tts invocation exits 1 after writing
600 bytes of partial output, and the ffmpeg silent source completes
without writing anything. -/
def envJunk : Env :=
  ⟨fun _ => ProcResult.completed 1 (some (List.replicate 600 1)),
   ProcResult.excOther, SilentRun.completed none⟩

/-- Environment in which the first edge-tts invocation succeeds (chunk 0)
and every later one exits 0 writing only 500 undersized bytes, so chunk 1
exhausts its retries with a partial part-file on disk. -/
def envPartFail : Env :=
  ⟨fun k => if k = 0 then ProcResult.completed 0 (some (List.replicate 1001 1))
            else ProcResult.completed 0 (some (List.replicate 500 2)),
   ProcResult.excOther, SilentRun.raised⟩

/-! ## Theorems -/

theorem splitSentences_ne_nil (t : List Char) : splitSentences t ≠ [] := by
  cases t with
  | nil => simp [splitSentences]
  | cons c rest =>
    simp only [splitSentences]
    split <;> simp

theorem splitSentences_join (t : List Char) : (splitSentences t).flatten = t := by
  induction t with
  | nil => simp [splitSentences]
  | cons c rest ih =>
    simp only [splitSentences]
    cases h : splitSentences rest with
    | nil => exact absurd h (splitSentences_ne_nil rest)
    | cons s ss =>
      rw [h] at ih
      split
      · simpa using ih
      · simpa using ih

theorem packGo_join (maxLen : Nat) :
    ∀ (ss acc : List (List Char)) (cur : List Char),
      (packGo maxLen ss acc cur).flatten = acc.flatten ++ cur ++ ss.flatten := by
  intro ss
  induction ss with
  | nil =>
    intro acc cur
    simp only [packGo]
    split
    · simp
    · rename_i h
      simp at h
      simp [h]
  | cons s rest ih =>
    intro acc cur
    simp only [packGo]
    split
    · rename_i h
      simp [h, ih]
    · split
      · simp [ih]
      · simp [ih]

theorem sliceGo_join (maxLen : Nat) :
    ∀ (fuel : Nat) (c : List Char), (sliceGo maxLen fuel c).flatten = c := by
  intro fuel
  induction fuel with
  | zero =>
    intro c
    simp only [sliceGo]
    split
    · simp
    · rename_i h
      simp at h
      simp [h]
  | succ f ih =>
    intro c
    simp only [sliceGo]
    split
    · simp [ih]
    · split
      · simp
      · rename_i _ h
        simp at h
        simp [h]

theorem sliceGo_length_le (maxLen : Nat) (hm : 1 ≤ maxLen) :
    ∀ (fuel : Nat) (c : List Char), c.length ≤ fuel + maxLen →
      ∀ x ∈ sliceGo maxLen fuel c, x.length ≤ maxLen := by
  intro fuel
  induction fuel with
  | zero =>
    intro c hc x hx
    simp only [sliceGo] at hx
    split at hx
    · simp at hx
      subst hx
      simpa using hc
    · simp at hx
  | succ f ih =>
    intro c hc x hx
    simp only [sliceGo] at hx
    split at hx
    · rename_i hlong
      rcases List.mem_cons.mp hx with h | h
      · subst h
        simp [List.length_take]
      · refine ih (c.drop maxLen) ?_ x h
        simp [List.length_drop]
        omega
    · split at hx
      · rename_i hshort _
        simp at hx
        subst hx
        omega
      · simp at hx

theorem mapSlice_join (maxLen : Nat) (l : List (List Char)) :
    ((l.map (sliceChunk maxLen)).flatten).flatten = l.flatten := by
  induction l with
  | nil => simp
  | cons c rest ih =>
    simp [List.flatten_append, ih, sliceChunk, sliceGo_join]

/-- C1: concatenating the chunks returned by `_split_text` in order yields
exactly the original text, and every chunk has length at most 200. -/
theorem split_text_roundtrip_and_bounded (text : List Char) :
    (split_text text).flatten = text ∧ ∀ c ∈ split_text text, c.length ≤ 200 := by
  constructor
  · unfold split_text
    split
    · simp
    · rw [mapSlice_join, packGo_join]
      simp [splitSentences_join]
  · intro c hc
    unfold split_text at hc
    split at hc
    · rename_i hshort
      simp at hc
      subst hc
      exact hshort
    · rw [List.mem_flatten] at hc
      obtain ⟨s, hs, hcs⟩ := hc
      rw [List.mem_map] at hs
      obtain ⟨chunk, _, hchunk⟩ := hs
      subst hchunk
      exact sliceGo_length_le 200 (by omega) chunk.length chunk (by omega) c hcs

/-- Witness for C1 at a concrete input: the membership hypothesis of the
second conjunct discharged at the text "ab". -/
theorem split_text_roundtrip_witness :
    (split_text ("ab".toList)).flatten = "ab".toList ∧ ("ab".toList).length ≤ 200 := by
  have h := split_text_roundtrip_and_bounded ("ab".toList)
  exact ⟨h.1, h.2 ("ab".toList) (by decide)⟩

/-- C9: a text of length at most 200 is returned as a single chunk equal
to the input (server.py lines 298-299). -/
theorem split_text_short_single (text : List Char) (h : text.length ≤ 200) :
    split_text text = [text] := by
  simp [split_text, h]

/-- Witness for C9 at the concrete two-character input "hi". -/
theorem split_text_short_single_witness :
    ("hi".toList).length ≤ 200 ∧ split_text ("hi".toList) = ["hi".toList] :=
  ⟨by decide, split_text_short_single ("hi".toList) (by decide)⟩

theorem transcribe_audio_ne_nil (o : SttOutcome) : transcribe_audio o ≠ [] := by
  cases o with
  | response status t =>
    simp only [transcribe_audio]
    split
    · split
      · assumption
      · decide
    · intro h
      rw [List.append_eq_nil, List.append_eq_nil] at h
      exact absurd h.1.1 (by decide)
  | exc m =>
    simp only [transcribe_audio]
    intro h
    rw [List.append_eq_nil, List.append_eq_nil] at h
    exact absurd h.1.1 (by decide)

/-- C7: `transcribe_audio` is total (no exception escapes — the model is a
total function over all observed outcomes) and always returns a non-empty
string: the trimmed `text` field on HTTP 200, the fixed blank-recording
placeholder when that field strips to nothing, a diagnostic embedding the
status code on non-200, and a diagnostic embedding the exception message on
any raised exception; the orchestrator passes exactly this string to reply
generation. -/
theorem transcribe_audio_total (o : SttOutcome) (co : ChatOutcome) :
    transcribe_audio o ≠ [] ∧
    (∀ t, o = SttOutcome.response 200 t → pyStrip t ≠ [] →
      transcribe_audio o = pyStrip t) ∧
    (∀ t, o = SttOutcome.response 200 t → pyStrip t = [] →
      transcribe_audio o = "[空白录音]".toList) ∧
    (∀ s t, o = SttOutcome.response s t → s ≠ 200 →
      transcribe_audio o = "[STT error: ".toList ++ (toString s).toList ++ "]".toList) ∧
    (∀ m, o = SttOutcome.exc m →
      transcribe_audio o = "[STT error: ".toList ++ m ++ "]".toList) ∧
    (chatTexts o co).1 = get_openclaw_reply (transcribe_audio o) co := by
  refine ⟨transcribe_audio_ne_nil o, ?_, ?_, ?_, ?_, rfl⟩
  · intro t ho hs
    subst ho
    simp [transcribe_audio, hs]
  · intro t ho hs
    subst ho
    simp [transcribe_audio, hs]
  · intro s t ho hs
    subst ho
    simp [transcribe_audio, hs]
  · intro m ho
    subst ho
    rfl

/-- Witness for C7: an HTTP 500 transcription outcome yields the concrete
diagnostic placeholder, which is non-empty. -/
theorem transcribe_audio_total_witness :
    transcribe_audio (SttOutcome.response 500 ("x".toList)) = "[STT error: 500]".toList ∧
    transcribe_audio (SttOutcome.response 500 ("x".toList)) ≠ [] := by
  have h := transcribe_audio_total (SttOutcome.response 500 ("x".toList)) ChatOutcome.timeout
  refine ⟨?_, h.1⟩
  have h4 := h.2.2.2.1 500 ("x".toList) rfl (by decide)
  rw [h4]
  decide

/-- Counterexample to C4: an HTTP 200 response whose `content` field is the
single space character is truthy in Python, so the source returns
`text.strip()` — the empty string — rather than any placeholder. -/
theorem get_openclaw_reply_empty_counterexample :
    get_openclaw_reply ("hello".toList) (ChatOutcome.response 200 [' ']) = [] := by
  decide

/-- C4 amended: the string returned by `get_openclaw_reply` is non-empty
for every outcome except an HTTP 200 response whose content field is
non-empty but consists only of whitespace (which strips to the empty
string); an HTTP 200 response with an empty content field yields the fixed
got-distracted placeholder. -/
theorem get_openclaw_reply_nonempty_amended (transcript : List Char) (o : ChatOutcome) :
    (get_openclaw_reply transcript o = [] →
      ∃ c, o = ChatOutcome.response 200 c ∧ c ≠ [] ∧ pyStrip c = []) ∧
    (∀ c, o = ChatOutcome.response 200 c → c = [] →
      get_openclaw_reply transcript o = "Hmm... I spaced out for a moment.".toList) := by
  cases o with
  | response status content =>
    constructor
    · intro h
      simp only [get_openclaw_reply] at h
      split at h
      · split at h
        · rename_i hs hc
          exact ⟨content, by rw [hs], hc, h⟩
        · exact absurd h (by decide)
      · exact absurd h (by decide)
    · intro c hc hnil
      obtain ⟨hs, hcc⟩ : status = 200 ∧ content = c := by
        cases hc
        exact ⟨rfl, rfl⟩
      subst hs
      subst hcc
      subst hnil
      simp [get_openclaw_reply]
  | timeout =>
    constructor
    · intro h
      rw [get_openclaw_reply, List.append_eq_nil, List.append_eq_nil] at h
      exact absurd h.1.1 (by decide)
    · intro c hc
      cases hc
  | excOther =>
    constructor
    · intro h
      rw [get_openclaw_reply, List.append_eq_nil, List.append_eq_nil] at h
      exact absurd h.1.1 (by decide)
    · intro c hc
      cases hc

/-- Witness for the amended C4: an HTTP 200 response with empty content
yields the got-distracted placeholder. -/
theorem get_openclaw_reply_nonempty_amended_witness :
    get_openclaw_reply ("hi".toList) (ChatOutcome.response 200 []) =
      "Hmm... I spaced out for a moment.".toList := by
  have h := get_openclaw_reply_nonempty_amended ("hi".toList) (ChatOutcome.response 200 [])
  exact h.2 [] rfl rfl

/-- C8: `get_openclaw_reply` propagates no exception (the model is total
over all observed outcomes); a timeout yields the apology placeholder
embedding the transcript, and any other transport error yields the
connectivity-note placeholder embedding the transcript — both non-empty,
both containing the transcript verbatim. -/
theorem get_openclaw_reply_degradation (transcript : List Char) :
    get_openclaw_reply transcript ChatOutcome.timeout =
      "I heard: ".toList ++ transcript ++ "... but I took too long thinking, sorry!".toList ∧
    List.IsInfix transcript (get_openclaw_reply transcript ChatOutcome.timeout) ∧
    get_openclaw_reply transcript ChatOutcome.excOther =
      "I heard: ".toList ++ transcript ++ " (connection issue)".toList ∧
    List.IsInfix transcript (get_openclaw_reply transcript ChatOutcome.excOther) ∧
    get_openclaw_reply transcript ChatOutcome.timeout ≠ [] ∧
    get_openclaw_reply transcript ChatOutcome.excOther ≠ [] := by
  refine ⟨rfl, ⟨"I heard: ".toList, "... but I took too long thinking, sorry!".toList, rfl⟩,
    rfl, ⟨"I heard: ".toList, " (connection issue)".toList, rfl⟩, ?_, ?_⟩
  · intro h
    rw [get_openclaw_reply, List.append_eq_nil, List.append_eq_nil] at h
    exact absurd h.1.1 (by decide)
  · intro h
    rw [get_openclaw_reply, List.append_eq_nil, List.append_eq_nil] at h
    exact absurd h.1.1 (by decide)

/-- C10: the transcription request always carries model
"whisper-large-v3-turbo" and language "zh", independent of the Turn's
requested language, while the language field does alter the reply prompt. -/
theorem chat_stt_request_fixed (language : String) :
    chatSttRequest language = { model := "whisper-large-v3-turbo", language := "zh" } ∧
    (∀ l₁ l₂ : String, chatSttRequest l₁ = chatSttRequest l₂) ∧
    langInstruction "en" ≠ langInstruction "zh" := by
  refine ⟨rfl, fun _ _ => rfl, ?_⟩
  decide

/-! ## Filesystem lemmas -/

theorem FS.read_write_self (fs : FS) (p : String) (bs : List Nat) :
    (fs.write p bs).read p = some bs := by
  simp [FS.read, FS.write, List.find?]

theorem FS.read_write_ne (fs : FS) (p q : String) (bs : List Nat) (h : q ≠ p) :
    (fs.write p bs).read q = fs.read q := by
  have hb : (p == q) = false := by
    simp
    exact fun he => h he.symm
  simp [FS.read, FS.write, List.find?, hb]

theorem FS.read_unlink_self (fs : FS) (p : String) : (fs.unlink p).read p = none := by
  obtain ⟨l⟩ := fs
  induction l with
  | nil => rfl
  | cons e rest ih =>
    simp only [FS.unlink, FS.read, List.filter_cons] at ih ⊢
    cases he : (e.1 == p) with
    | true => simpa [he] using ih
    | false => simpa [he, List.find?_cons] using ih

theorem FS.read_unlink_ne (fs : FS) (p q : String) (h : q ≠ p) :
    (fs.unlink p).read q = fs.read q := by
  obtain ⟨l⟩ := fs
  induction l with
  | nil => rfl
  | cons e rest ih =>
    simp only [FS.unlink, FS.read, List.filter_cons] at ih ⊢
    cases he : (e.1 == p) with
    | true =>
      have hq : (e.1 == q) = false := by
        simp at he ⊢
        rw [he]
        exact fun hh => h hh.symm
      simpa [he, List.find?_cons, hq] using ih
    | false =>
      cases hq : (e.1 == q) with
      | true => simp [he, List.find?_cons, hq]
      | false => simpa [he, List.find?_cons, hq] using ih

theorem unlinkAll_read_of_not_mem (ps : List String) (fs : FS) (q : String) (h : q ∉ ps) :
    (unlinkAll fs ps).read q = fs.read q := by
  induction ps generalizing fs with
  | nil => rfl
  | cons a ps ih =>
    have hqa : q ≠ a := fun he => h (by simp [he])
    have hq : q ∉ ps := fun he => h (by simp [he])
    calc (unlinkAll (fs.unlink a) ps).read q
        = (fs.unlink a).read q := ih (fs.unlink a) hq
      _ = fs.read q := FS.read_unlink_ne fs a q hqa

theorem unlinkAll_read_none (ps : List String) (fs : FS) (q : String)
    (h : fs.read q = none) : (unlinkAll fs ps).read q = none := by
  induction ps generalizing fs with
  | nil => exact h
  | cons a ps ih =>
    refine ih (fs.unlink a) ?_
    by_cases hqa : q = a
    · rw [hqa]
      exact FS.read_unlink_self fs a
    · rw [FS.read_unlink_ne fs a q hqa]
      exact h

theorem unlinkAll_read_of_mem (ps : List String) (fs : FS) (q : String) (h : q ∈ ps) :
    (unlinkAll fs ps).read q = none := by
  induction ps generalizing fs with
  | nil => cases h
  | cons a ps ih =>
    by_cases hq : q ∈ ps
    · exact ih (fs.unlink a) hq
    · have hqa : q = a := by
        rcases List.mem_cons.mp h with h1 | h1
        · exact h1
        · exact absurd h1 hq
      refine unlinkAll_read_none ps (fs.unlink a) q ?_
      rw [hqa]
      exact FS.read_unlink_self fs a

/-! ## `_write_silent_mp3` lemmas -/

theorem write_silent_mp3_counters (o : SilentRun) (path : String) (st : St) :
    (write_silent_mp3 o path st).fallbacks = st.fallbacks + 1 ∧
    (write_silent_mp3 o path st).synthTexts = st.synthTexts ∧
    (write_silent_mp3 o path st).concatCalls = st.concatCalls ∧
    (write_silent_mp3 o path st).edgeCalls = st.edgeCalls := by
  cases o with
  | completed out =>
    simp only [write_silent_mp3]
    split <;> simp
  | raised => simp [write_silent_mp3]

theorem write_silent_mp3_read_ne (o : SilentRun) (path : String) (st : St) (q : String)
    (h : q ≠ path) : (write_silent_mp3 o path st).fs.read q = st.fs.read q := by
  cases o with
  | completed out =>
    cases out with
    | none =>
      simp only [write_silent_mp3, writeOpt]
      split
      · rfl
      · exact FS.read_write_ne st.fs path q silentWavBytes h
    | some bs =>
      simp only [write_silent_mp3, writeOpt]
      split
      · exact FS.read_write_ne st.fs path q bs h
      · rw [FS.read_write_ne _ path q silentWavBytes h]
        exact FS.read_write_ne st.fs path q bs h
  | raised =>
    simp only [write_silent_mp3]
    exact FS.read_write_ne st.fs path q silentWavBytes h

theorem write_silent_mp3_fallback_wav (o : SilentRun) (path : String) (st : St)
    (ho : o.failsOrEmpty) (h0 : st.fs.sizeAt path = 0) :
    (write_silent_mp3 o path st).fs.read path = some silentWavBytes := by
  cases o with
  | completed out =>
    rcases ho with h | h
    · subst h
      simp only [write_silent_mp3, writeOpt]
      rw [if_neg]
      · exact FS.read_write_self st.fs path silentWavBytes
      · rintro ⟨-, hlt⟩
        rw [h0] at hlt
        exact absurd hlt (by omega)
    · subst h
      simp only [write_silent_mp3, writeOpt]
      rw [if_neg]
      · exact FS.read_write_self _ path silentWavBytes
      · rintro ⟨-, hlt⟩
        have : (st.fs.write path []).sizeAt path = 0 := by
          simp [FS.sizeAt, FS.read_write_self]
        rw [this] at hlt
        exact absurd hlt (by omega)
  | raised =>
    simp only [write_silent_mp3]
    exact FS.read_write_self st.fs path silentWavBytes

theorem silentWav_decomp :
    silentWavBytes = silentWavHeader ++ List.replicate 16000 0 := by
  rfl

theorem silentWavHeader_length : silentWavHeader.length = 44 := by decide

theorem silentWav_wellformed : isMinimalSilentWav silentWavBytes := by
  refine ⟨?_, by decide, by decide, by decide, by decide, by decide, by decide, by decide,
    by decide, by decide, by decide, by decide, by decide, by decide, ?_⟩
  · rw [silentWav_decomp, List.length_append, List.length_replicate, silentWavHeader_length]
  · rw [silentWav_decomp]
    have h := List.drop_left silentWavHeader (List.replicate 16000 (0 : Nat))
    rw [silentWavHeader_length] at h
    exact h

/-! ## Retry-loop lemmas -/

theorem sleepIf_fs (r : Nat) (st : St) : (sleepIf r st).fs = st.fs := by
  unfold sleepIf
  split <;> rfl

theorem sleepIf_edgeCalls (r : Nat) (st : St) : (sleepIf r st).edgeCalls = st.edgeCalls := by
  unfold sleepIf
  split <;> rfl

theorem sleepIf_fallbacks (r : Nat) (st : St) : (sleepIf r st).fallbacks = st.fallbacks := by
  unfold sleepIf
  split <;> rfl

theorem sleepIf_concatCalls (r : Nat) (st : St) :
    (sleepIf r st).concatCalls = st.concatCalls := by
  unfold sleepIf
  split <;> rfl

theorem sleepIf_synthTexts (r : Nat) (st : St) :
    (sleepIf r st).synthTexts = st.synthTexts := by
  unfold sleepIf
  split <;> rfl

theorem runEdgeTTSLoop_counters (edge : Nat → ProcResult) (p : String) :
    ∀ (r : Nat) (st : St),
      (runEdgeTTSLoop edge p r st).2.fallbacks = st.fallbacks ∧
      (runEdgeTTSLoop edge p r st).2.concatCalls = st.concatCalls ∧
      (runEdgeTTSLoop edge p r st).2.synthTexts = st.synthTexts := by
  intro r
  induction r with
  | zero => exact fun st => ⟨rfl, rfl, rfl⟩
  | succ n ih =>
    intro st
    simp only [runEdgeTTSLoop]
    cases edge st.edgeCalls with
    | completed rc out =>
      dsimp only
      by_cases hc : rc = 0 ∧ ((writeOpt st.fs p out).read p).isSome = true ∧
          1000 < (writeOpt st.fs p out).sizeAt p
      · rw [if_pos hc]
        exact ⟨rfl, rfl, rfl⟩
      · rw [if_neg hc]
        have h := ih (sleepIf n { st with
          edgeCalls := st.edgeCalls + 1,
          fs := writeOpt st.fs p out })
        rwa [sleepIf_fallbacks, sleepIf_concatCalls, sleepIf_synthTexts] at h
    | timedOut =>
      have h := ih (sleepIf n { st with edgeCalls := st.edgeCalls + 1 })
      rwa [sleepIf_fallbacks, sleepIf_concatCalls, sleepIf_synthTexts] at h
    | notFound => exact ⟨rfl, rfl, rfl⟩
    | excOther =>
      have h := ih (sleepIf n { st with edgeCalls := st.edgeCalls + 1 })
      rwa [sleepIf_fallbacks, sleepIf_concatCalls, sleepIf_synthTexts] at h

theorem runEdgeTTSLoop_calls_step (edge : Nat → ProcResult) (p : String) (n : Nat)
    (s1 : St) (base : Nat) (hbase : s1.edgeCalls = base + 1)
    (H : ∀ st : St, ∃ a, (runEdgeTTSLoop edge p n st).2.edgeCalls = st.edgeCalls + a ∧
        (runEdgeTTSLoop edge p n st).2.sleeps = st.sleeps + (a - 1) ∧
        a ≤ n ∧ (1 ≤ n → 1 ≤ a)) :
    ∃ a, (runEdgeTTSLoop edge p n (sleepIf n s1)).2.edgeCalls = base + a ∧
      (runEdgeTTSLoop edge p n (sleepIf n s1)).2.sleeps = s1.sleeps + (a - 1) ∧
      a ≤ n + 1 ∧ (1 ≤ n + 1 → 1 ≤ a) := by
  obtain ⟨a, h1, h2, h3, h4⟩ := H (sleepIf n s1)
  rw [sleepIf_edgeCalls, hbase] at h1
  refine ⟨1 + a, by omega, ?_, by omega, by omega⟩
  by_cases hn : 0 < n
  · have hs : (sleepIf n s1).sleeps = s1.sleeps + 1 := by
      simp [sleepIf, if_pos hn]
    rw [hs] at h2
    have h1a := h4 hn
    omega
  · have ha0 : a = 0 := by omega
    have hs : (sleepIf n s1).sleeps = s1.sleeps := by
      simp [sleepIf, if_neg hn]
    rw [hs] at h2
    omega

theorem runEdgeTTSLoop_calls (edge : Nat → ProcResult) (p : String) :
    ∀ (r : Nat) (st : St),
      ∃ a, (runEdgeTTSLoop edge p r st).2.edgeCalls = st.edgeCalls + a ∧
        (runEdgeTTSLoop edge p r st).2.sleeps = st.sleeps + (a - 1) ∧
        a ≤ r ∧ (1 ≤ r → 1 ≤ a) := by
  intro r
  induction r with
  | zero => exact fun st => ⟨0, rfl, rfl, le_refl 0, by omega⟩
  | succ n ih =>
    intro st
    simp only [runEdgeTTSLoop]
    cases edge st.edgeCalls with
    | completed rc out =>
      dsimp only
      by_cases hc : rc = 0 ∧ ((writeOpt st.fs p out).read p).isSome = true ∧
          1000 < (writeOpt st.fs p out).sizeAt p
      · rw [if_pos hc]
        exact ⟨1, rfl, rfl, by omega, fun _ => le_refl 1⟩
      · rw [if_neg hc]
        exact runEdgeTTSLoop_calls_step edge p n _ st.edgeCalls rfl ih
    | timedOut =>
      exact runEdgeTTSLoop_calls_step edge p n _ st.edgeCalls rfl ih
    | notFound => exact ⟨1, rfl, rfl, by omega, fun _ => le_refl 1⟩
    | excOther =>
      exact runEdgeTTSLoop_calls_step edge p n _ st.edgeCalls rfl ih

theorem runEdgeTTSLoop_read_ne (edge : Nat → ProcResult) (p : String) :
    ∀ (r : Nat) (st : St) (q : String), q ≠ p →
      (runEdgeTTSLoop edge p r st).2.fs.read q = st.fs.read q := by
  intro r
  induction r with
  | zero => exact fun st q _ => rfl
  | succ n ih =>
    intro st q hq
    simp only [runEdgeTTSLoop]
    cases edge st.edgeCalls with
    | completed rc out =>
      have hw : (writeOpt st.fs p out).read q = st.fs.read q := by
        cases out with
        | none => rfl
        | some bs => exact FS.read_write_ne st.fs p q bs hq
      dsimp only
      by_cases hc : rc = 0 ∧ ((writeOpt st.fs p out).read p).isSome = true ∧
          1000 < (writeOpt st.fs p out).sizeAt p
      · rw [if_pos hc]
        exact hw
      · rw [if_neg hc, ih (sleepIf n _) q hq, sleepIf_fs]
        exact hw
    | timedOut =>
      rw [ih (sleepIf n _) q hq, sleepIf_fs]
    | notFound => rfl
    | excOther =>
      rw [ih (sleepIf n _) q hq, sleepIf_fs]

theorem runEdgeTTSLoop_true (edge : Nat → ProcResult) (p : String) :
    ∀ (r : Nat) (st : St), (runEdgeTTSLoop edge p r st).1 = true →
      ∃ out, edge ((runEdgeTTSLoop edge p r st).2.edgeCalls - 1) = ProcResult.completed 0 out ∧
        ((runEdgeTTSLoop edge p r st).2.fs.read p).isSome = true ∧
        1000 < (runEdgeTTSLoop edge p r st).2.fs.sizeAt p := by
  intro r
  induction r with
  | zero => exact fun st h => absurd h (by simp [runEdgeTTSLoop])
  | succ n ih =>
    intro st htrue
    simp only [runEdgeTTSLoop] at htrue ⊢
    cases he : edge st.edgeCalls with
    | completed rc out =>
      rw [he] at htrue
      dsimp only at htrue ⊢
      by_cases hc : rc = 0 ∧
          ((writeOpt st.fs p out).read p).isSome = true ∧
          1000 < (writeOpt st.fs p out).sizeAt p
      · rw [if_pos hc] at htrue ⊢
        refine ⟨out, ?_, hc.2.1, hc.2.2⟩
        show edge (st.edgeCalls + 1 - 1) = ProcResult.completed 0 out
        have h1 : st.edgeCalls + 1 - 1 = st.edgeCalls := by omega
        rw [h1, he, hc.1]
      · rw [if_neg hc] at htrue ⊢
        exact ih _ htrue
    | timedOut =>
      rw [he] at htrue
      dsimp only at htrue ⊢
      exact ih _ htrue
    | notFound =>
      rw [he] at htrue
      dsimp only at htrue
      exact absurd htrue (by simp)
    | excOther =>
      rw [he] at htrue
      dsimp only at htrue ⊢
      exact ih _ htrue

theorem runEdgeTTSLoop_failsCleanly (edge : Nat → ProcResult) (p : String)
    (hE : ∀ k, (edge k).failsCleanly) :
    ∀ (r : Nat) (st : St), (runEdgeTTSLoop edge p r st).1 = false ∧
      (runEdgeTTSLoop edge p r st).2.fs = st.fs := by
  intro r
  induction r with
  | zero => exact fun st => ⟨rfl, rfl⟩
  | succ n ih =>
    intro st
    simp only [runEdgeTTSLoop]
    cases he : edge st.edgeCalls with
    | completed rc out =>
      have hf := hE st.edgeCalls
      rw [he] at hf
      obtain ⟨hrc, hout⟩ := hf
      subst hout
      dsimp only
      rw [if_neg (by rintro ⟨h0, -⟩; exact hrc h0)]
      have h := ih (sleepIf n { st with edgeCalls := st.edgeCalls + 1, fs := writeOpt st.fs p none })
      rwa [sleepIf_fs] at h
    | timedOut =>
      have h := ih (sleepIf n { st with edgeCalls := st.edgeCalls + 1 })
      rwa [sleepIf_fs] at h
    | notFound => exact ⟨rfl, rfl⟩
    | excOther =>
      have h := ih (sleepIf n { st with edgeCalls := st.edgeCalls + 1 })
      rwa [sleepIf_fs] at h

theorem runEdgeTTSLoop_first_notFound (edge : Nat → ProcResult) (p : String)
    (r : Nat) (st : St) (h : edge st.edgeCalls = ProcResult.notFound) :
    runEdgeTTSLoop edge p (r + 1) st = (false, { st with edgeCalls := st.edgeCalls + 1 }) := by
  simp only [runEdgeTTSLoop, h]

theorem runEdgeTTSLoop_first_success (edge : Nat → ProcResult) (p : String)
    (r : Nat) (st : St) (rc : Int) (out : Option (List Nat))
    (h : edge st.edgeCalls = ProcResult.completed rc out)
    (hs : edgeSuccessAt st.fs p rc out) :
    runEdgeTTSLoop edge p (r + 1) st =
      (true, { st with edgeCalls := st.edgeCalls + 1, fs := writeOpt st.fs p out }) := by
  simp only [runEdgeTTSLoop, h]
  rw [if_pos (show rc = 0 ∧ ((writeOpt st.fs p out).read p).isSome = true ∧
    1000 < (writeOpt st.fs p out).sizeAt p from hs)]

theorem runEdgeTTSLoop_first_retry (edge : Nat → ProcResult) (p : String)
    (r : Nat) (st : St) (h : retryableAt st.fs p (edge st.edgeCalls)) :
    ∃ a, 2 ≤ a ∧ (runEdgeTTSLoop edge p (r + 2) st).2.edgeCalls = st.edgeCalls + a := by
  have key : ∀ (s1 : St), s1.edgeCalls = st.edgeCalls + 1 →
      ∃ a, 2 ≤ a ∧ (runEdgeTTSLoop edge p (r + 1) (sleepIf (r + 1) s1)).2.edgeCalls
        = st.edgeCalls + a := by
    intro s1 hs1
    obtain ⟨a, ha1, -, -, ha4⟩ := runEdgeTTSLoop_calls edge p (r + 1) (sleepIf (r + 1) s1)
    refine ⟨1 + a, by have := ha4 (by omega); omega, ?_⟩
    rw [ha1, sleepIf_edgeCalls, hs1]
    omega
  show ∃ a, 2 ≤ a ∧ (runEdgeTTSLoop edge p (r + 1 + 1) st).2.edgeCalls = st.edgeCalls + a
  simp only [runEdgeTTSLoop]
  cases he : edge st.edgeCalls with
  | completed rc out =>
    rw [he] at h
    dsimp only
    rw [if_neg (show ¬(rc = 0 ∧ ((writeOpt st.fs p out).read p).isSome = true ∧
      1000 < (writeOpt st.fs p out).sizeAt p) from h)]
    exact key _ rfl
  | timedOut => exact key _ rfl
  | notFound =>
    rw [he] at h
    cases h
  | excOther => exact key _ rfl

/-- C6: every `_run_edge_tts` invocation makes between 1 and 3 subprocess
attempts with a 1-second backoff between consecutive attempts (backoff
sleeps = attempts - 1); an attempt counts as success exactly when the
process exits 0 and the output file exists with more than 1000 bytes (a
first attempt satisfying this succeeds with no retry); a retryable first
outcome (non-zero exit, missing or undersized output, timeout, or another
exception) is followed by at least one further attempt; a missing engine
binary returns failure immediately after a single attempt. -/
theorem run_edge_tts_retry_contract (edge : Nat → ProcResult) (text : List Char)
    (outputPath voice rate : String) (st : St) :
    1 ≤ (run_edge_tts edge text outputPath voice rate st).2.edgeCalls - st.edgeCalls ∧
    (run_edge_tts edge text outputPath voice rate st).2.edgeCalls - st.edgeCalls ≤ 3 ∧
    (run_edge_tts edge text outputPath voice rate st).2.sleeps - st.sleeps
      = ((run_edge_tts edge text outputPath voice rate st).2.edgeCalls - st.edgeCalls) - 1 ∧
    ((run_edge_tts edge text outputPath voice rate st).1 = true →
      ∃ out, edge ((run_edge_tts edge text outputPath voice rate st).2.edgeCalls - 1)
          = ProcResult.completed 0 out ∧
        ((run_edge_tts edge text outputPath voice rate st).2.fs.read outputPath).isSome = true ∧
        1000 < (run_edge_tts edge text outputPath voice rate st).2.fs.sizeAt outputPath) ∧
    (edge st.edgeCalls = ProcResult.notFound →
      (run_edge_tts edge text outputPath voice rate st).1 = false ∧
      (run_edge_tts edge text outputPath voice rate st).2.edgeCalls = st.edgeCalls + 1) ∧
    (∀ rc out, edge st.edgeCalls = ProcResult.completed rc out →
      edgeSuccessAt st.fs outputPath rc out →
      (run_edge_tts edge text outputPath voice rate st).1 = true ∧
      (run_edge_tts edge text outputPath voice rate st).2.edgeCalls = st.edgeCalls + 1) ∧
    (retryableAt st.fs outputPath (edge st.edgeCalls) →
      2 ≤ (run_edge_tts edge text outputPath voice rate st).2.edgeCalls - st.edgeCalls) := by
  simp only [run_edge_tts]
  obtain ⟨a, h1, h2, h3, h4⟩ := runEdgeTTSLoop_calls edge outputPath 3
    { st with synthTexts := st.synthTexts ++ [text] }
  dsimp only at h1 h2
  refine ⟨?_, ?_, ?_, ?_, ?_, ?_, ?_⟩
  · have ha := h4 (by omega)
    omega
  · omega
  · omega
  · exact runEdgeTTSLoop_true edge outputPath 3 _
  · intro hnf
    have heq := runEdgeTTSLoop_first_notFound edge outputPath 2
      { st with synthTexts := st.synthTexts ++ [text] } hnf
    rw [heq]
    exact ⟨rfl, rfl⟩
  · intro rc out he hs
    have heq := runEdgeTTSLoop_first_success edge outputPath 2
      { st with synthTexts := st.synthTexts ++ [text] } rc out he hs
    rw [heq]
    exact ⟨rfl, rfl⟩
  · intro hr
    obtain ⟨b, hb1, hb2⟩ := runEdgeTTSLoop_first_retry edge outputPath 1
      { st with synthTexts := st.synthTexts ++ [text] } hr
    have : ({ st with synthTexts := st.synthTexts ++ [text] } : St).edgeCalls = st.edgeCalls :=
      rfl
    rw [this] at hb2
    show 2 ≤ (runEdgeTTSLoop edge outputPath (1 + 2) _).2.edgeCalls - st.edgeCalls
    omega

/-- Witness for C6: with the engine binary absent, `_run_edge_tts` fails
after exactly one attempt. -/
theorem run_edge_tts_retry_contract_witness :
    (run_edge_tts (fun _ => ProcResult.notFound) ("hi".toList) "o.mp3" "v"
      "+0%" stEmpty).1 = false ∧
    (run_edge_tts (fun _ => ProcResult.notFound) ("hi".toList) "o.mp3" "v"
      "+0%" stEmpty).2.edgeCalls = 1 := by
  have h := run_edge_tts_retry_contract (fun _ => ProcResult.notFound) ("hi".toList)
    "o.mp3" "v" "+0%" stEmpty
  have h5 := h.2.2.2.2.1 rfl
  exact ⟨h5.1, h5.2⟩

/-! ## `_run_edge_tts` wrapper lemmas -/

theorem run_edge_tts_counters (edge : Nat → ProcResult) (text : List Char)
    (outputPath voice rate : String) (st : St) :
    (run_edge_tts edge text outputPath voice rate st).2.fallbacks = st.fallbacks ∧
    (run_edge_tts edge text outputPath voice rate st).2.concatCalls = st.concatCalls ∧
    (run_edge_tts edge text outputPath voice rate st).2.synthTexts
      = st.synthTexts ++ [text] := by
  simp only [run_edge_tts]
  have h := runEdgeTTSLoop_counters edge outputPath 3
    { st with synthTexts := st.synthTexts ++ [text] }
  exact ⟨h.1, h.2.1, h.2.2⟩

theorem run_edge_tts_read_ne (edge : Nat → ProcResult) (text : List Char)
    (outputPath voice rate : String) (st : St) (q : String) (h : q ≠ outputPath) :
    (run_edge_tts edge text outputPath voice rate st).2.fs.read q = st.fs.read q := by
  simp only [run_edge_tts]
  exact runEdgeTTSLoop_read_ne edge outputPath 3
    { st with synthTexts := st.synthTexts ++ [text] } q h

theorem run_edge_tts_failsCleanly (edge : Nat → ProcResult)
    (hE : ∀ k, (edge k).failsCleanly) (text : List Char)
    (outputPath voice rate : String) (st : St) :
    (run_edge_tts edge text outputPath voice rate st).1 = false ∧
    (run_edge_tts edge text outputPath voice rate st).2.fs = st.fs := by
  simp only [run_edge_tts]
  exact runEdgeTTSLoop_failsCleanly edge outputPath hE 3
    { st with synthTexts := st.synthTexts ++ [text] }

/-! ## Chunk-loop lemmas -/

theorem ttsChunkLoop_master (env : Env) (outputPath voice rate : String) :
    ∀ (cs : List (List Char)) (i : Nat) (st : St),
      (ttsChunkLoop env outputPath voice rate cs i st).2.2.synthTexts
        = st.synthTexts ++ cs.take
            (if (ttsChunkLoop env outputPath voice rate cs i st).2.1 then cs.length
             else (ttsChunkLoop env outputPath voice rate cs i st).1.length + 1) ∧
      (ttsChunkLoop env outputPath voice rate cs i st).1.length ≤ cs.length ∧
      ((ttsChunkLoop env outputPath voice rate cs i st).2.1 = false →
        (ttsChunkLoop env outputPath voice rate cs i st).1.length < cs.length) ∧
      (ttsChunkLoop env outputPath voice rate cs i st).2.2.fallbacks = st.fallbacks ∧
      (ttsChunkLoop env outputPath voice rate cs i st).2.2.concatCalls = st.concatCalls := by
  intro cs
  induction cs with
  | nil =>
    intro i st
    refine ⟨by simp [ttsChunkLoop], le_refl 0, ?_, rfl, rfl⟩
    intro h
    exact absurd h (by simp [ttsChunkLoop])
  | cons chunk rest ih =>
    intro i st
    simp only [ttsChunkLoop]
    have hr := run_edge_tts_counters env.edge chunk (partPath outputPath i) voice rate st
    by_cases h1 : (run_edge_tts env.edge chunk (partPath outputPath i) voice rate st).1 = true
    · rw [if_pos h1]
      obtain ⟨ha, hb, hc, hd, he⟩ := ih (i + 1)
        (run_edge_tts env.edge chunk (partPath outputPath i) voice rate st).2
      refine ⟨?_, by simpa using hb, ?_, by rw [hd, hr.1], by rw [he, hr.2.1]⟩
      · rw [ha, hr.2.2]
        by_cases hok : (ttsChunkLoop env outputPath voice rate rest (i + 1)
            (run_edge_tts env.edge chunk (partPath outputPath i) voice rate st).2).2.1
        · simp only [hok, if_true, List.length_cons]
          rw [List.append_assoc]
          congr 1
        · simp only [hok, if_false, List.length_cons]
          rw [List.append_assoc]
          congr 1
      · intro hfail
        have := hc (by simpa using hfail)
        simpa using this
    · rw [if_neg h1]
      refine ⟨?_, by simp, fun _ => by simp, hr.1, hr.2.1⟩
      rw [hr.2.2]
      simp

theorem ttsChunkLoop_parts_shape (env : Env) (outputPath voice rate : String) :
    ∀ (cs : List (List Char)) (i : Nat) (st : St),
      ∀ x ∈ (ttsChunkLoop env outputPath voice rate cs i st).1,
        ∃ j, i ≤ j ∧ j < i + cs.length ∧ x = partPath outputPath j := by
  intro cs
  induction cs with
  | nil =>
    intro i st x hx
    simp [ttsChunkLoop] at hx
  | cons chunk rest ih =>
    intro i st x hx
    simp only [ttsChunkLoop] at hx
    by_cases h1 : (run_edge_tts env.edge chunk (partPath outputPath i) voice rate st).1 = true
    · rw [if_pos h1] at hx
      rcases List.mem_cons.mp hx with h | h
      · exact ⟨i, le_refl i, by simp, h⟩
      · obtain ⟨j, hj1, hj2, hj3⟩ := ih (i + 1) _ x h
        exact ⟨j, by omega, by simp at hj2 ⊢; omega, hj3⟩
    · rw [if_neg h1] at hx
      simp at hx

theorem ttsChunkLoop_read_ne (env : Env) (outputPath voice rate : String) :
    ∀ (cs : List (List Char)) (i : Nat) (st : St) (q : String),
      (∀ j, i ≤ j → j < i + cs.length → q ≠ partPath outputPath j) →
      (ttsChunkLoop env outputPath voice rate cs i st).2.2.fs.read q = st.fs.read q := by
  intro cs
  induction cs with
  | nil => exact fun i st q _ => rfl
  | cons chunk rest ih =>
    intro i st q hq
    simp only [ttsChunkLoop]
    have hr := run_edge_tts_read_ne env.edge chunk (partPath outputPath i) voice rate st q
      (hq i (le_refl i) (by simp))
    by_cases h1 : (run_edge_tts env.edge chunk (partPath outputPath i) voice rate st).1 = true
    · rw [if_pos h1]
      rw [ih (i + 1) _ q (fun j hj1 hj2 => hq j (by omega) (by simp at hj2 ⊢; omega))]
      exact hr
    · rw [if_neg h1]
      exact hr

theorem ttsChunkLoop_failsCleanly (env : Env) (outputPath voice rate : String)
    (hE : ∀ k, (env.edge k).failsCleanly) (cs : List (List Char)) (i : Nat) (st : St) :
    (ttsChunkLoop env outputPath voice rate cs i st).1 = [] ∧
    (ttsChunkLoop env outputPath voice rate cs i st).2.2.fs = st.fs := by
  cases cs with
  | nil => exact ⟨rfl, rfl⟩
  | cons chunk rest =>
    simp only [ttsChunkLoop]
    have hr := run_edge_tts_failsCleanly env.edge hE chunk (partPath outputPath i)
      voice rate st
    rw [hr.1]
    rw [if_neg (by simp)]
    exact ⟨rfl, hr.2⟩

/-! ## Concat-stage lemmas -/

theorem afterLoopConcat_synthTexts (env : Env) (outputPath : String)
    (parts : List String) (st : St) :
    (afterLoopConcat env outputPath parts st).synthTexts = st.synthTexts := by
  unfold afterLoopConcat
  cases env.concat with
  | completed rc out =>
    dsimp only
    split
    · rfl
    · exact (write_silent_mp3_counters _ _ _).2.1
  | timedOut => exact (write_silent_mp3_counters _ _ _).2.1
  | notFound => exact (write_silent_mp3_counters _ _ _).2.1
  | excOther => exact (write_silent_mp3_counters _ _ _).2.1

theorem afterLoopConcat_cleanup (env : Env) (outputPath : String)
    (parts : List String) (st : St) (hpo : ∀ p ∈ parts, p ≠ outputPath) :
    (∀ p ∈ parts, (afterLoopConcat env outputPath parts st).fs.read p = none) ∧
    ((afterLoopConcat env outputPath parts st).fallbacks = st.fallbacks →
      (afterLoopConcat env outputPath parts st).fs.read (manifestPath outputPath) = none) := by
  unfold afterLoopConcat
  cases env.concat with
  | completed rc out =>
    dsimp only
    split
    · constructor
      · intro p hp
        by_cases hpl : p = manifestPath outputPath
        · rw [hpl]
          exact FS.read_unlink_self _ _
        · rw [FS.read_unlink_ne _ _ _ hpl]
          exact unlinkAll_read_of_mem parts _ p hp
      · intro _
        exact FS.read_unlink_self _ _
    · constructor
      · intro p hp
        rw [write_silent_mp3_read_ne _ _ _ p (hpo p hp)]
        exact unlinkAll_read_of_mem parts _ p hp
      · intro hfb
        rw [(write_silent_mp3_counters env.silent outputPath _).1] at hfb
        dsimp only at hfb
        exact absurd hfb (by omega)
  | timedOut =>
    constructor
    · intro p hp
      rw [write_silent_mp3_read_ne _ _ _ p (hpo p hp)]
      exact unlinkAll_read_of_mem parts _ p hp
    · intro hfb
      rw [(write_silent_mp3_counters env.silent outputPath _).1] at hfb
      dsimp only at hfb
      exact absurd hfb (by omega)
  | notFound =>
    constructor
    · intro p hp
      rw [write_silent_mp3_read_ne _ _ _ p (hpo p hp)]
      exact unlinkAll_read_of_mem parts _ p hp
    · intro hfb
      rw [(write_silent_mp3_counters env.silent outputPath _).1] at hfb
      dsimp only at hfb
      exact absurd hfb (by omega)
  | excOther =>
    constructor
    · intro p hp
      rw [write_silent_mp3_read_ne _ _ _ p (hpo p hp)]
      exact unlinkAll_read_of_mem parts _ p hp
    · intro hfb
      rw [(write_silent_mp3_counters env.silent outputPath _).1] at hfb
      dsimp only at hfb
      exact absurd hfb (by omega)

/-! ## C2: fallback artifact under total external failure (corrected) -/

theorem runEdgeTTSLoop_failsExit (edge : Nat → ProcResult) (p : String)
    (hE : ∀ k, (edge k).failsExit) :
    ∀ (r : Nat) (st : St), (runEdgeTTSLoop edge p r st).1 = false := by
  intro r
  induction r with
  | zero => exact fun st => rfl
  | succ n ih =>
    intro st
    simp only [runEdgeTTSLoop]
    cases he : edge st.edgeCalls with
    | completed rc out =>
      have hf := hE st.edgeCalls
      rw [he] at hf
      dsimp only
      rw [if_neg (by rintro ⟨h0, -⟩; exact hf h0)]
      exact ih _
    | timedOut => exact ih _
    | notFound => rfl
    | excOther => exact ih _

theorem run_edge_tts_failsExit (edge : Nat → ProcResult)
    (hE : ∀ k, (edge k).failsExit) (text : List Char)
    (outputPath voice rate : String) (st : St) :
    (run_edge_tts edge text outputPath voice rate st).1 = false := by
  simp only [run_edge_tts]
  exact runEdgeTTSLoop_failsExit edge outputPath hE 3 _

theorem ttsChunkLoop_failsExit (env : Env) (outputPath voice rate : String)
    (hE : ∀ k, (env.edge k).failsExit) (cs : List (List Char)) (i : Nat) (st : St) :
    (ttsChunkLoop env outputPath voice rate cs i st).1 = [] := by
  cases cs with
  | nil => rfl
  | cons chunk rest =>
    simp only [ttsChunkLoop]
    rw [run_edge_tts_failsExit env.edge hE chunk (partPath outputPath i) voice rate st]
    rw [if_neg (by simp)]

theorem write_silent_mp3_pos (o : SilentRun) (path : String) (st : St) :
    ∃ bs, (write_silent_mp3 o path st).fs.read path = some bs ∧ 0 < bs.length := by
  have hlen : 0 < silentWavBytes.length := by
    have h1 := silentWav_wellformed.1
    omega
  cases o with
  | completed out =>
    simp only [write_silent_mp3]
    split
    · rename_i hcond
      obtain ⟨bs, hbs⟩ := Option.isSome_iff_exists.mp hcond.1
      refine ⟨bs, hbs, ?_⟩
      have hsz := hcond.2
      simp only [FS.sizeAt, hbs] at hsz
      exact hsz
    · exact ⟨silentWavBytes, FS.read_write_self _ path silentWavBytes, hlen⟩
  | raised => exact ⟨silentWavBytes, FS.read_write_self _ path silentWavBytes, hlen⟩

/-- Under cleanly-failing synthesis (no partial output), a failing-or-empty
silent source and an initially absent output file, the run ends with
exactly the minimal silent waveform at the output path. -/
theorem generate_tts_clean_failure_wav (env : Env) (text : List Char)
    (outputPath voice speed : String) (st0 : St)
    (hEdge : ∀ k, (env.edge k).failsCleanly)
    (hSilent : env.silent.failsOrEmpty)
    (hClean : st0.fs.read outputPath = none) :
    (generate_tts env text outputPath voice speed st0).fs.read outputPath
      = some silentWavBytes := by
  simp only [generate_tts]
  by_cases h1 : (split_text text).length = 1
  · rw [if_pos h1]
    have hr := run_edge_tts_failsCleanly env.edge hEdge text outputPath voice
      (rateMap speed) st0
    rw [hr.1, if_neg (by simp)]
    refine write_silent_mp3_fallback_wav env.silent outputPath _ hSilent ?_
    rw [show (run_edge_tts env.edge text outputPath voice (rateMap speed) st0).2.fs.sizeAt
      outputPath = st0.fs.sizeAt outputPath by rw [hr.2]]
    simp [FS.sizeAt, hClean]
  · rw [if_neg h1]
    have hL := ttsChunkLoop_failsCleanly env outputPath voice (rateMap speed) hEdge
      (split_text text) 0 st0
    rw [if_neg (by rintro ⟨-, hne⟩; exact hne hL.1)]
    refine write_silent_mp3_fallback_wav env.silent outputPath _ hSilent ?_
    dsimp only
    rw [hL.1]
    show (unlinkAll (ttsChunkLoop env outputPath voice (rateMap speed)
      (split_text text) 0 st0).2.2.fs []).sizeAt outputPath = 0
    rw [show unlinkAll (ttsChunkLoop env outputPath voice (rateMap speed)
      (split_text text) 0 st0).2.2.fs [] = (ttsChunkLoop env outputPath voice (rateMap speed)
      (split_text text) 0 st0).2.2.fs from rfl, hL.2]
    simp [FS.sizeAt, hClean]

set_option maxRecDepth 400000 in
/-- Counterexample to C2: every edge-tts invocation fails (exit code 1),
each attempt leaving 600 bytes of partial output at the output path, and
the ffmpeg silent-source generation fails (completes writing nothing).
`_write_silent_mp3` then finds the leftover junk via its
`path.exists() and st_size > 0` check (server.py line 390) and returns,
keeping the 600 junk bytes as the artifact — which is not a well-formed
minimal RIFF/WAVE container. -/
theorem generate_tts_junk_kept_counterexample :
    (generate_tts envJunk ("hi".toList) "r_reply.mp3" "v" "normal" stEmpty).fs.read
      "r_reply.mp3" = some (List.replicate 600 1) ∧
    ¬ isMinimalSilentWav (List.replicate 600 1) := by
  constructor
  · decide
  · unfold isMinimalSilentWav
    decide

/-- C2 amended: when every edge-tts synthesis invocation fails with a
non-zero exit (or raises), `generate_tts` always leaves an artifact of
positive size at the output path; that artifact is the well-formed minimal
silent RIFF/WAVE waveform (16000 Hz, mono, 16-bit PCM, 0.5 seconds, RIFF
size `36 + data-size`, data size matching its 16000 sample bytes) whenever
the failed attempts additionally left no partial output behind, the
silent-source generation fails or leaves an empty file, and no file
pre-existed at the output path — but partial junk left at the output path
by a failed attempt is kept as the artifact instead (see the
counterexample). -/
theorem generate_tts_total_failure_amended (env : Env) (text : List Char)
    (outputPath voice speed : String) (st0 : St)
    (hEdge : ∀ k, (env.edge k).failsExit) :
    (∃ bs, (generate_tts env text outputPath voice speed st0).fs.read outputPath
        = some bs ∧ 0 < bs.length) ∧
    ((∀ k, (env.edge k).failsCleanly) → env.silent.failsOrEmpty →
      st0.fs.read outputPath = none →
      (generate_tts env text outputPath voice speed st0).fs.read outputPath
        = some silentWavBytes ∧ 0 < silentWavBytes.length ∧
        isMinimalSilentWav silentWavBytes) := by
  constructor
  · simp only [generate_tts]
    by_cases h1 : (split_text text).length = 1
    · rw [if_pos h1]
      rw [run_edge_tts_failsExit env.edge hEdge text outputPath voice (rateMap speed) st0]
      rw [if_neg (by simp)]
      exact write_silent_mp3_pos env.silent outputPath _
    · rw [if_neg h1]
      have hL := ttsChunkLoop_failsExit env outputPath voice (rateMap speed) hEdge
        (split_text text) 0 st0
      rw [if_neg (by rintro ⟨-, hne⟩; exact hne hL)]
      exact write_silent_mp3_pos env.silent outputPath _
  · intro hCleanly hSilent hNone
    have hw := silentWav_wellformed
    exact ⟨generate_tts_clean_failure_wav env text outputPath voice speed st0
      hCleanly hSilent hNone, by have h1 := hw.1; omega, hw⟩

/-- Witness for the amended C2: with a missing edge-tts binary and a
raising ffmpeg, the output path holds a positive-size artifact — exactly
the minimal silent waveform. -/
theorem generate_tts_total_failure_amended_witness :
    (∃ bs, (generate_tts envNF ("hi".toList) "r_reply.mp3" "v" "normal" stEmpty).fs.read
        "r_reply.mp3" = some bs ∧ 0 < bs.length) ∧
    (generate_tts envNF ("hi".toList) "r_reply.mp3" "v" "normal" stEmpty).fs.read
      "r_reply.mp3" = some silentWavBytes := by
  have h := generate_tts_total_failure_amended envNF ("hi".toList) "r_reply.mp3" "v"
    "normal" stEmpty (fun _ => trivial)
  exact ⟨h.1, (h.2 (fun _ => trivial) trivial rfl).1⟩

/-! ## C5: in-order synthesis, abort on first failure -/

/-- C5: in the multi-chunk path the synthesis log is `chunks.take m` for
some `m` — chunks are passed to the engine in order with none skipped; when
the loop stops at a failed chunk, the log is exactly the chunks up to and
including the failed one (so no later chunk is ever synthesized), the
ffmpeg concat stage is never invoked, and the run falls through to the
silent-audio fallback. -/
theorem generate_tts_chunk_order (env : Env) (text : List Char)
    (outputPath voice speed : String) (st0 : St)
    (hmulti : 2 ≤ (split_text text).length) :
    ∃ m, m ≤ (split_text text).length ∧
      (generate_tts env text outputPath voice speed st0).synthTexts
        = st0.synthTexts ++ (split_text text).take m ∧
      ((ttsChunkLoop env outputPath voice (rateMap speed)
          (split_text text) 0 st0).2.1 = false →
        m = (ttsChunkLoop env outputPath voice (rateMap speed)
            (split_text text) 0 st0).1.length + 1 ∧
        (generate_tts env text outputPath voice speed st0).fallbacks = st0.fallbacks + 1 ∧
        (generate_tts env text outputPath voice speed st0).concatCalls = st0.concatCalls) := by
  obtain ⟨hsyn, hlen, hfaillen, hfb0, hcc0⟩ :=
    ttsChunkLoop_master env outputPath voice (rateMap speed) (split_text text) 0 st0
  simp only [generate_tts]
  rw [if_neg (by omega)]
  by_cases hok : (ttsChunkLoop env outputPath voice (rateMap speed)
      (split_text text) 0 st0).2.1 = true
  · rw [if_pos hok] at hsyn
    by_cases hg : (ttsChunkLoop env outputPath voice (rateMap speed)
        (split_text text) 0 st0).2.1 = true ∧
        (ttsChunkLoop env outputPath voice (rateMap speed) (split_text text) 0 st0).1 ≠ []
    · rw [if_pos hg]
      refine ⟨(split_text text).length, le_refl _, ?_, ?_⟩
      · rw [afterLoopConcat_synthTexts, hsyn]
      · intro hfalse
        rw [hfalse] at hok
        exact absurd hok (by simp)
    · rw [if_neg hg]
      refine ⟨(split_text text).length, le_refl _, ?_, ?_⟩
      · rw [(write_silent_mp3_counters env.silent outputPath _).2.1]
        dsimp only
        rw [hsyn]
      · intro hfalse
        rw [hfalse] at hok
        exact absurd hok (by simp)
  · have hok' : (ttsChunkLoop env outputPath voice (rateMap speed)
        (split_text text) 0 st0).2.1 = false := by
      simpa using hok
    rw [if_neg hok] at hsyn
    rw [if_neg (by rintro ⟨h, -⟩; exact hok h)]
    have hlt := hfaillen hok'
    refine ⟨(ttsChunkLoop env outputPath voice (rateMap speed)
      (split_text text) 0 st0).1.length + 1, by omega, ?_, ?_⟩
    · rw [(write_silent_mp3_counters env.silent outputPath _).2.1]
      dsimp only
      rw [hsyn]
    · intro _
      refine ⟨rfl, ?_, ?_⟩
      · rw [(write_silent_mp3_counters env.silent outputPath _).1]
        dsimp only
        rw [hfb0]
      · rw [(write_silent_mp3_counters env.silent outputPath _).2.2.1]
        dsimp only
        rw [hcc0]

set_option maxRecDepth 400000 in
/-- Witness for C5: with a two-chunk text and the engine binary absent,
exactly the first chunk is passed to synthesis, no concat is attempted,
and the fallback is invoked once. -/
theorem generate_tts_chunk_order_witness :
    (generate_tts envNF textLong "r_reply.mp3" "v" "normal" stEmpty).fallbacks = 1 ∧
    (generate_tts envNF textLong "r_reply.mp3" "v" "normal" stEmpty).concatCalls = 0 ∧
    (generate_tts envNF textLong "r_reply.mp3" "v" "normal" stEmpty).synthTexts
      = (split_text textLong).take 1 := by
  obtain ⟨m, hm, hsyn, hfail⟩ := generate_tts_chunk_order envNF textLong "r_reply.mp3"
    "v" "normal" stEmpty (by decide)
  have hf := hfail (by decide)
  have h0 : (ttsChunkLoop envNF "r_reply.mp3" "v" (rateMap "normal")
      (split_text textLong) 0 stEmpty).1.length = 0 := by decide
  refine ⟨hf.2.1, hf.2.2, ?_⟩
  rw [hsyn, hf.1, h0]
  rfl

/-! ## C3: temporary-file cleanup (corrected) -/

set_option maxRecDepth 400000 in
/-- Counterexample to C3, exhibiting both leaks of the cleanup code
(server.py lines 345-371, which unlink only `part_paths` — the parts of
successfully synthesized chunks — and unlink `list_file` only on concat
success).  First run: both chunks synthesize successfully but the ffmpeg
concat exits non-zero; the `.txt` concat manifest written at line 348
remains on disk after the run resolves.  Second run: chunk 0 synthesizes
successfully and chunk 1 exhausts its retries, each failed attempt leaving
a 500-byte undersized part-file; that part-file is not in `part_paths` and
remains on disk after the run resolves. -/
theorem generate_tts_cleanup_leak_counterexample :
    ((generate_tts envConcatFail textLong "r_reply.mp3" "v" "normal" stEmpty).fs.read
      (manifestPath "r_reply.mp3")).isSome = true ∧
    ((generate_tts envPartFail textLong "r_reply.mp3" "v" "normal" stEmpty).fs.read
      (partPath "r_reply.mp3" 1)).isSome = true := by
  constructor
  · decide
  · decide

/-- C3 amended: once a multi-chunk run is resolved, every part-file of a
successfully synthesized chunk is removed; the concat manifest is removed
when concatenation succeeds (resolution without fallback) and is never
created when a chunk's synthesis fails — but on concat failure the
manifest remains on disk, and the partial part-file of a chunk whose
synthesis exhausted its retries may also remain (both leaks exhibited in
the counterexample). -/
theorem generate_tts_cleanup_amended (env : Env) (text : List Char)
    (outputPath voice speed : String) (st0 : St)
    (hmulti : 2 ≤ (split_text text).length)
    (hpo : ∀ i, i < (split_text text).length → partPath outputPath i ≠ outputPath)
    (hmo : manifestPath outputPath ≠ outputPath)
    (hpm : ∀ i, i < (split_text text).length →
      partPath outputPath i ≠ manifestPath outputPath)
    (hm0 : st0.fs.read (manifestPath outputPath) = none) :
    (∀ p ∈ (ttsChunkLoop env outputPath voice (rateMap speed) (split_text text) 0 st0).1,
      (generate_tts env text outputPath voice speed st0).fs.read p = none) ∧
    ((generate_tts env text outputPath voice speed st0).fallbacks = st0.fallbacks →
      (generate_tts env text outputPath voice speed st0).fs.read
        (manifestPath outputPath) = none) ∧
    ((ttsChunkLoop env outputPath voice (rateMap speed)
        (split_text text) 0 st0).2.1 = false →
      (generate_tts env text outputPath voice speed st0).fs.read
        (manifestPath outputPath) = none) := by
  obtain ⟨hsyn, hlen, hfaillen, hfb0, hcc0⟩ :=
    ttsChunkLoop_master env outputPath voice (rateMap speed) (split_text text) 0 st0
  have hshape := ttsChunkLoop_parts_shape env outputPath voice (rateMap speed)
    (split_text text) 0 st0
  have hpo' : ∀ p ∈ (ttsChunkLoop env outputPath voice (rateMap speed)
      (split_text text) 0 st0).1, p ≠ outputPath := by
    intro p hp
    obtain ⟨j, hj1, hj2, hj3⟩ := hshape p hp
    rw [hj3]
    exact hpo j (by omega)
  simp only [generate_tts]
  rw [if_neg (by omega)]
  by_cases hg : (ttsChunkLoop env outputPath voice (rateMap speed)
      (split_text text) 0 st0).2.1 = true ∧
      (ttsChunkLoop env outputPath voice (rateMap speed) (split_text text) 0 st0).1 ≠ []
  · rw [if_pos hg]
    have hc := afterLoopConcat_cleanup env outputPath
      (ttsChunkLoop env outputPath voice (rateMap speed) (split_text text) 0 st0).1
      (ttsChunkLoop env outputPath voice (rateMap speed) (split_text text) 0 st0).2.2 hpo'
    refine ⟨hc.1, ?_, ?_⟩
    · intro hfb
      refine hc.2 ?_
      rw [hfb, hfb0]
    · intro hfalse
      rw [hfalse] at hg
      exact absurd hg.1 (by simp)
  · rw [if_neg hg]
    refine ⟨?_, ?_, ?_⟩
    · intro p hp
      rw [write_silent_mp3_read_ne _ _ _ p (hpo' p hp)]
      dsimp only
      exact unlinkAll_read_of_mem _ _ p hp
    · intro hfb
      rw [(write_silent_mp3_counters env.silent outputPath _).1] at hfb
      dsimp only at hfb
      rw [hfb0] at hfb
      exact absurd hfb (by omega)
    · intro hfalse
      rw [write_silent_mp3_read_ne _ _ _ _ hmo]
      dsimp only
      refine unlinkAll_read_none _ _ _ ?_
      rw [ttsChunkLoop_read_ne env outputPath voice (rateMap speed) (split_text text) 0 st0
        (manifestPath outputPath) ?_]
      · exact hm0
      · intro j hj1 hj2 heq
        exact hpm j (by omega) heq.symm

set_option maxRecDepth 400000 in
/-- Witness for the amended C3: in a fully successful multi-chunk run both
the first part-file and the manifest are gone afterwards. -/
theorem generate_tts_cleanup_amended_witness :
    (generate_tts envConcatOk textLong "r_reply.mp3" "v" "normal" stEmpty).fs.read
      (partPath "r_reply.mp3" 0) = none ∧
    (generate_tts envConcatOk textLong "r_reply.mp3" "v" "normal" stEmpty).fs.read
      (manifestPath "r_reply.mp3") = none := by
  have h := generate_tts_cleanup_amended envConcatOk textLong "r_reply.mp3" "v" "normal"
    stEmpty (by decide) (by decide) (by decide) (by decide) rfl
  exact ⟨h.1 (partPath "r_reply.mp3" 0) (by decide), h.2.1 (by decide)⟩

end VideochatServer
